import Mathlib

/-!
# Verification of the income-tracker recurrence and reporting engine

A shallow embedding of the recurrence-expansion and period-reporting code of
the income-tracker application (`incomes/models.py`, `incomes/views.py`,
`incomes/tasks.py`), together with theorems settling the specification's
claims about it.

Conventions of the embedding:
* Python `datetime.date` values become the `Date` structure (year/month/day as
  naturals) with Python's lexicographic comparison; validity of a date
  (month in 1..12, day in 1..last day of month) is the separate predicate
  `ValidDate`, since Python enforces it by construction.
* `dateutil.relativedelta` month/year steps become `addMonths` / `addYears`,
  which clamp the day to the last day of the target month exactly as the
  library does.
* Python `float` values become rationals, and each float operation rounds its
  exact rational result with `froundQ`, a model of IEEE-754 binary64
  round-to-nearest-ties-to-even (normal range; overflow and subnormal
  behaviour are irrelevant for the magnitudes that appear here).
* The `while` loop of `Income.upcoming_occurrences` becomes the fuel-indexed
  `occLoop`; the fuel `occFuel` is proved sufficient (the loop result is
  stable under any larger fuel), which is the embedding's rendering of the
  loop's termination.
-/

namespace IncomeTracker

/-- Embedding of Python `datetime.date`: a year/month/day triple. -/
structure Date where
  year : Nat
  month : Nat
  day : Nat
deriving DecidableEq, Repr

/-- Python date comparison `a <= b`: lexicographic on (year, month, day). -/
def Date.leB (a b : Date) : Bool :=
  decide (a.year < b.year) ||
    (decide (a.year = b.year) &&
      (decide (a.month < b.month) ||
        (decide (a.month = b.month) && decide (a.day ≤ b.day))))

/-- Python date comparison `a < b`: lexicographic on (year, month, day). -/
def Date.ltB (a b : Date) : Bool :=
  decide (a.year < b.year) ||
    (decide (a.year = b.year) &&
      (decide (a.month < b.month) ||
        (decide (a.month = b.month) && decide (a.day < b.day))))

/-- Python `calendar.isleap`. -/
def isLeap (y : Nat) : Bool :=
  decide (y % 4 = 0) && (decide (y % 100 ≠ 0) || decide (y % 400 = 0))

/-- Python `calendar.monthrange(y, m)[1]`: the number of days of month `m`
of year `y`. -/
def daysInMonth (y m : Nat) : Nat :=
  if m = 2 then (if isLeap y then 29 else 28)
  else if m = 4 ∨ m = 6 ∨ m = 9 ∨ m = 11 then 30
  else 31

/-- Validity invariant of Python `datetime.date`: the month lies in 1..12 and
the day in 1..(days of the month). -/
def ValidDate (d : Date) : Prop :=
  1 ≤ d.month ∧ d.month ≤ 12 ∧ 1 ≤ d.day ∧ d.day ≤ daysInMonth d.year d.month

instance (d : Date) : Decidable (ValidDate d) := by
  unfold ValidDate; infer_instance

/-- The month-range part of `ValidDate`, the only precondition several
loop lemmas need. -/
def MonthOK (d : Date) : Prop := 1 ≤ d.month ∧ d.month ≤ 12

instance (d : Date) : Decidable (MonthOK d) := by
  unfold MonthOK; infer_instance

/-- `dateutil` `date + relativedelta(months=n)`: advance the month by `n`
with year carry, clamping the day to the last day of the target month. -/
def addMonths (d : Date) (n : Nat) : Date :=
  let total := (d.month - 1) + n
  let y := d.year + total / 12
  let m := total % 12 + 1
  { year := y, month := m, day := min d.day (daysInMonth y m) }

/-- `dateutil` `date + relativedelta(years=n)`: advance the year by `n`,
clamping the day to the last day of the target month (Feb 29 → Feb 28). -/
def addYears (d : Date) (n : Nat) : Date :=
  let y := d.year + n
  { year := y, month := d.month, day := min d.day (daysInMonth y d.month) }

/-- Python `date + timedelta(days=1)`. -/
def nextDay (d : Date) : Date :=
  if d.day < daysInMonth d.year d.month then
    { year := d.year, month := d.month, day := d.day + 1 }
  else if d.month < 12 then
    { year := d.year, month := d.month + 1, day := 1 }
  else
    { year := d.year + 1, month := 1, day := 1 }

/-- A `dateutil.relativedelta` value as produced by
`Income.RecurringChoices.get_interval`: a whole-month or whole-year step. -/
inductive Interval where
  | months (n : Nat)
  | years (n : Nat)
deriving DecidableEq, Repr

/-- `Income.RecurringChoices.get_interval`: dictionary lookup from the
recurrence tag to its calendar step; `none` (Python `None`) both for the
`NO` tag and for every unrecognized tag, since `dict.get` defaults to
`None`. -/
def get_interval (value : String) : Option Interval :=
  if value = "MO" then some (Interval.months 1)
  else if value = "QO" then some (Interval.months 3)
  else if value = "SO" then some (Interval.months 6)
  else if value = "YO" then some (Interval.years 1)
  else none

/-- Application of a `relativedelta` step to a date (`current_date + interval`). -/
def applyInterval (d : Date) : Interval → Date
  | Interval.months n => addMonths d n
  | Interval.years n => addYears d n

/-- The fields of the `Income` model that the recurrence/reporting engine
reads.  `amount` is the decrypted value of the `amount` property — a Python
float, modelled as the rational it denotes.  `recurring` is the stored tag
string (`"NO"`, `"MO"`, `"QO"`, `"SO"`, `"YO"`, or corrupt data). -/
structure Income where
  amount : ℚ
  currency : String
  date : Date
  recurring : String
  expiration_date : Option Date
deriving DecidableEq

/-- `Income.get_next_occurrence`: `None` for the `NO` tag, otherwise
`current_date + interval` when the tag resolves, else `None`. -/
def get_next_occurrence (inc : Income) (current : Date) : Option Date :=
  if inc.recurring = "NO" then none
  else
    match get_interval inc.recurring with
    | some i => some (applyInterval current i)
    | none => none

/-- Months elapsed since year 0, the termination measure of the generator
loop: each recurring step strictly increases it. -/
def monthKey (d : Date) : Nat := 12 * d.year + (d.month - 1)

/-- The `while next_date <= end_date` loop of `Income.upcoming_occurrences`,
indexed by fuel. -/
def occLoop (inc : Income) (end_date : Date) : Nat → Date → List Date
  | 0, _ => []
  | fuel + 1, next_date =>
    if Date.leB next_date end_date then
      match get_next_occurrence inc next_date with
      | some d => next_date :: occLoop inc end_date fuel d
      | none => [next_date]
    else []

/-- Fuel sufficient for `occLoop` starting from the record's anchor date
(proved sufficient in `occLoop_fuel_irrelevant`). -/
def occFuel (inc : Income) (end_date : Date) : Nat :=
  monthKey end_date + 2 - monthKey inc.date

/-- `Income.upcoming_occurrences`: for the `NO` tag, the anchor alone (when
it does not exceed `end_date`); otherwise the generation loop from the
anchor. -/
def upcoming_occurrences (inc : Income) (end_date : Date) : List Date :=
  if inc.recurring = "NO" then
    if Date.leB inc.date end_date then [inc.date] else []
  else
    occLoop inc end_date (occFuel inc end_date) inc.date

/-! ## Model of Python `float` (IEEE-754 binary64) arithmetic

The report view sums amounts with Python floats (`float(...)` and
`defaultdict(float)`), so the embedding carries float values as the exact
rationals they denote and rounds the result of every arithmetic operation
with `froundQ`, round-to-nearest-ties-to-even at 53 significand bits.  The
magnitudes appearing in this development are all normal and far from
overflow, so the normal-range model is exact for them. -/

/-- `2 ^ n` as a rational, by structural recursion (kernel-friendly). -/
def pow2 : Nat → ℚ
  | 0 => 1
  | n + 1 => 2 * pow2 n

/-- Binary exponent of a positive rational: normalizes `q` into `[1, 2)`
by doubling/halving, returning the exponent `e` with `2^e ≤ q < 2^(e+1)`.
The fuel (2200 at call sites) covers the whole binary64 range. -/
def ilog2 : Nat → ℚ → Int → Int
  | 0, _, e => e
  | fuel + 1, q, e =>
    if q < 1 then ilog2 fuel (2 * q) (e - 1)
    else if 2 ≤ q then ilog2 fuel (q / 2) (e + 1)
    else e

/-- Floor of a rational as an integer. -/
def ratFloor (q : ℚ) : Int := Int.fdiv q.num q.den

/-- Round a rational to the nearest integer, ties to even. -/
def roundHalfEven (q : ℚ) : Int :=
  let f := ratFloor q
  let frac := q - (f : ℚ)
  if frac < 1 / 2 then f
  else if 1 / 2 < frac then f + 1
  else if f % 2 = 0 then f else f + 1

/-- Round an exact rational to the nearest IEEE-754 binary64 value
(round-to-nearest, ties to even; normal range). -/
def froundQ (q : ℚ) : ℚ :=
  if q = 0 then 0
  else
    let a := if q < 0 then -q else q
    let e := ilog2 2200 a 0
    let s := e - 52
    let scaled := if 0 ≤ s then q / pow2 s.toNat else q * pow2 (-s).toNat
    let n := roundHalfEven scaled
    if 0 ≤ s then (n : ℚ) * pow2 s.toNat else (n : ℚ) / pow2 (-s).toNat

/-- One Python float addition: round the exact sum. -/
def fadd (x y : ℚ) : ℚ := froundQ (x + y)

/-! ## The report view (`ReportView` in `incomes/views.py`)

An occurrence is the `(occ_date, income)` pair appended by
`ReportView._get_occurrences`. -/

/-- Python `min(a, b)` on dates. -/
def minDate (a b : Date) : Date := if Date.leB a b then a else b

/-- The first day of the target month (`date(year, month, 1)` in
`_get_filtered_incomes`). -/
def month_start (year month : Nat) : Date := ⟨year, month, 1⟩

/-- `ReportView._get_month_end`: the last calendar day of the target
month. -/
def get_month_end (year month : Nat) : Date :=
  ⟨year, month, daysInMonth year month⟩

/-- The record-level filter of `ReportView._get_filtered_incomes` that the
engine sees: keep records whose `expiration_date` is null or is on/after the
first day of the target month.  (The user and soft-deletion filters belong to
the excluded persistence layer.) -/
def get_filtered_incomes (incomes : List Income) (year month : Nat) :
    List Income :=
  incomes.filter fun inc =>
    match inc.expiration_date with
    | none => true
    | some e => Date.leB (month_start year month) e

/-- `min([d for d in [income.expiration_date, month_end] if d])` in
`ReportView._get_occurrences`: the record's effective horizon. -/
def last_date (inc : Income) (month_end : Date) : Date :=
  match inc.expiration_date with
  | none => month_end
  | some e => minDate e month_end

/-- The retention test of `ReportView._get_occurrences`:
`occ_date.year == year and occ_date.month == month and
(income.expiration_date is None or occ_date <= income.expiration_date)`. -/
def occ_ok (inc : Income) (year month : Nat) (d : Date) : Bool :=
  (d.year == year) && (d.month == month) &&
    (match inc.expiration_date with
     | none => true
     | some e => Date.leB d e)

/-- The occurrence-collection loop of `ReportView._get_occurrences`: for
each record, generate occurrences up to its horizon and keep the dates that
pass `occ_ok`, paired with their record. -/
def gatherOccurrences (incomes : List Income) (year month : Nat)
    (month_end : Date) : List (Date × Income) :=
  incomes.flatMap fun inc =>
    ((upcoming_occurrences inc (last_date inc month_end)).filter
        (occ_ok inc year month)).map (fun d => (d, inc))

/-- Insert one occurrence into a date-sorted occurrence list, keeping it
sorted. -/
def insertOcc (a : Date × Income) : List (Date × Income) → List (Date × Income)
  | [] => [a]
  | b :: l => if Date.leB a.1 b.1 then a :: b :: l else b :: insertOcc a l

/-- `occurrences.sort(key=lambda x: x[0])`: stable sort of the collected
occurrences by date (insertion sort). -/
def sortOccs : List (Date × Income) → List (Date × Income)
  | [] => []
  | a :: l => insertOcc a (sortOccs l)

/-- The accrued/upcoming split at the end of `ReportView._get_occurrences`:
`accrued` keeps the occurrences with `odate <= today`, `upcoming` those with
`odate > today`. -/
def classify (occs : List (Date × Income)) (today : Date) :
    List (Date × Income) × List (Date × Income) :=
  (occs.filter (fun x => Date.leB x.1 today),
   occs.filter (fun x => Date.ltB today x.1))

/-- `ReportView._get_occurrences`: gather, sort, then split around
`today`. -/
def get_occurrences (incomes : List Income) (year month : Nat)
    (today month_end : Date) :
    List (Date × Income) × List (Date × Income) :=
  classify (sortOccs (gatherOccurrences incomes year month month_end)) today

/-- Python `sum(item["income"].amount for item in items)`: a left fold of
float additions starting from 0, as used for `accrued_total`,
`upcoming_total` and `all_total` in `ReportView.get_context_data`. -/
def sum_amounts (items : List (Date × Income)) : ℚ :=
  items.foldl (fun acc x => fadd acc x.2.amount) 0

/-- The per-currency accumulation of `ReportView._get_currency_totals`:
`currency_totals[currency] += float(item["income"].amount)` visits the
items of one currency in order, so each currency's subtotal is the float
fold of its own items' amounts. -/
def currency_subtotal (items : List (Date × Income)) (c : String) : ℚ :=
  (items.filter (fun x => x.2.currency == c)).foldl
    (fun acc x => fadd acc x.2.amount) 0

/-- Lexicographic code-point comparison of character lists. -/
def strLeListB : List Char → List Char → Bool
  | [], _ => true
  | _ :: _, [] => false
  | c :: cs, d :: ds =>
    if c.toNat < d.toNat then true
    else if d.toNat < c.toNat then false
    else strLeListB cs ds

/-- Python's `<=` on currency-code strings: lexicographic by code point. -/
def strLeB (a b : String) : Bool :=
  strLeListB a.data b.data

/-- Insert one currency code into a sorted code list, keeping it sorted. -/
def insertStr (a : String) : List String → List String
  | [] => [a]
  | b :: l => if strLeB a b then a :: b :: l else b :: insertStr a l

/-- Python `sorted` on currency codes (insertion sort). -/
def sortStrs : List String → List String
  | [] => []
  | a :: l => insertStr a (sortStrs l)

/-- The distinct currency codes of an occurrence list in first-appearance
order — the key set of the `defaultdict(float)`. -/
def currency_keys (items : List (Date × Income)) : List String :=
  items.foldl
    (fun ks x => if ks.contains x.2.currency then ks else ks ++ [x.2.currency])
    []

/-- `ReportView._get_currency_totals`: the `defaultdict(float)` of
per-currency sums, returned as an association list sorted by currency
code. -/
def get_currency_totals (items : List (Date × Income)) :
    List (String × ℚ) :=
  (sortStrs (currency_keys items)).map
    (fun c => (c, currency_subtotal items c))

/-! ## The reminder selector (`incomes/tasks.py`) -/

/-- Whether `send_whatsapp_reminder` fires for one income record on a given
day: the record must pass the queryset filter
`.filter(expiration_date__gte=now().date())` of `get_tomorrows_incomes`
(SQL `>=` is false for NULL, so a null `expiration_date` is excluded), and
`tomorrow = today + 1 day` must appear in
`income.upcoming_occurrences(end_date=tomorrow + timedelta(days=1))`. -/
def reminder_fires (inc : Income) (today : Date) : Bool :=
  (match inc.expiration_date with
   | none => false
   | some e => Date.leB today e) &&
  decide (nextDay today ∈ upcoming_occurrences inc (nextDay (nextDay today)))

/-! ## Concrete records used by scenario theorems and witnesses -/

/-- Record of the month-end scenario: anchored 2024-01-31, MONTHLY. -/
def incJan31 : Income :=
  { amount := 100, currency := "USD", date := ⟨2024, 1, 31⟩,
    recurring := "MO", expiration_date := none }

/-- Record of the expiration-boundary scenario: anchored 2024-01-01,
MONTHLY, expiring 2024-03-01. -/
def incExpMar1 : Income :=
  { amount := 100, currency := "USD", date := ⟨2024, 1, 1⟩,
    recurring := "MO", expiration_date := some ⟨2024, 3, 1⟩ }

/-- Record carrying a corrupt recurrence tag. -/
def incBadTag : Income :=
  { amount := 100, currency := "USD", date := ⟨2024, 5, 1⟩,
    recurring := "XX", expiration_date := none }

/-- One-time record with a null expiration date, anchored 2024-06-15. -/
def incNullExp : Income :=
  { amount := 50, currency := "USD", date := ⟨2024, 6, 15⟩,
    recurring := "NO", expiration_date := none }

/-- One-time record anchored 2024-05-01. -/
def incOnce : Income :=
  { amount := 10, currency := "USD", date := ⟨2024, 5, 1⟩,
    recurring := "NO", expiration_date := none }

/-- Monthly record anchored 2024-01-10, used by the window-soundness
witness. -/
def incJan10 : Income :=
  { amount := 25, currency := "USD", date := ⟨2024, 1, 10⟩,
    recurring := "MO", expiration_date := some ⟨2024, 3, 10⟩ }

/-- Occurrence of `float("0.10")` USD. -/
def occDime : Date × Income :=
  (⟨2024, 3, 5⟩,
   { amount := froundQ (1 / 10), currency := "USD", date := ⟨2024, 3, 5⟩,
     recurring := "NO", expiration_date := none })

/-- Occurrence of `float("0.20")` USD. -/
def occFifth : Date × Income :=
  (⟨2024, 3, 6⟩,
   { amount := froundQ (1 / 5), currency := "USD", date := ⟨2024, 3, 6⟩,
     recurring := "NO", expiration_date := none })

/-- Occurrence of 100.00 USD. -/
def occHundredUSD : Date × Income :=
  (⟨2024, 3, 1⟩,
   { amount := 100, currency := "USD", date := ⟨2024, 3, 1⟩,
     recurring := "NO", expiration_date := none })

/-- Occurrence of 200.50 USD. -/
def occTwoHalfUSD : Date × Income :=
  (⟨2024, 3, 2⟩,
   { amount := 401 / 2, currency := "USD", date := ⟨2024, 3, 2⟩,
     recurring := "NO", expiration_date := none })

/-- Occurrence of 200.00 JOD. -/
def occTwoHundredJOD : Date × Income :=
  (⟨2024, 3, 2⟩,
   { amount := 200, currency := "JOD", date := ⟨2024, 3, 2⟩,
     recurring := "NO", expiration_date := none })

/-! ## Order and calendar lemmas -/

theorem Date.leB_iff (a b : Date) :
    Date.leB a b = true ↔
      a.year < b.year ∨ (a.year = b.year ∧
        (a.month < b.month ∨ (a.month = b.month ∧ a.day ≤ b.day))) := by
  simp [Date.leB]

theorem Date.ltB_iff (a b : Date) :
    Date.ltB a b = true ↔
      a.year < b.year ∨ (a.year = b.year ∧
        (a.month < b.month ∨ (a.month = b.month ∧ a.day < b.day))) := by
  simp [Date.ltB]

/-- Totality of the date order: `a < b` is the negation of `b <= a`. -/
theorem Date.ltB_eq_not_leB (a b : Date) : Date.ltB a b = !Date.leB b a := by
  have h1 := Date.ltB_iff a b
  have h2 := Date.leB_iff b a
  rcases hlt : Date.ltB a b <;> rcases hle : Date.leB b a <;>
    simp_all <;> omega

theorem daysInMonth_pos (y m : Nat) : 1 ≤ daysInMonth y m := by
  unfold daysInMonth
  split
  · split <;> omega
  · split <;> omega

theorem monthKey_addMonths (d : Date) (n : Nat) :
    monthKey (addMonths d n) = monthKey d + n := by
  simp only [addMonths, monthKey]
  omega

theorem monthOK_addMonths (d : Date) (n : Nat) : MonthOK (addMonths d n) := by
  simp only [addMonths, MonthOK]
  omega

theorem monthKey_addYears (d : Date) (n : Nat) :
    monthKey (addYears d n) = monthKey d + 12 * n := by
  simp only [addYears, monthKey]
  omega

theorem get_next_step {inc : Income} {d d' : Date}
    (h : get_next_occurrence inc d = some d') (hd : MonthOK d) :
    monthKey d < monthKey d' ∧ MonthOK d' := by
  obtain ⟨hm1, hm2⟩ := hd
  unfold get_next_occurrence at h
  split at h
  · exact absurd h (by simp)
  · rcases hgi : get_interval inc.recurring with _ | i
    · rw [hgi] at h; exact absurd h (by simp)
    · rw [hgi] at h
      have hd' : d' = applyInterval d i := by
        injection h with h; exact h.symm
      subst hd'
      unfold get_interval at hgi
      split_ifs at hgi <;> injection hgi with hgi <;> subst hgi <;>
        simp only [applyInterval]
      · exact ⟨by rw [monthKey_addMonths d 1]; omega, monthOK_addMonths d 1⟩
      · exact ⟨by rw [monthKey_addMonths d 3]; omega, monthOK_addMonths d 3⟩
      · exact ⟨by rw [monthKey_addMonths d 6]; omega, monthOK_addMonths d 6⟩
      · refine ⟨by rw [monthKey_addYears d 1]; omega, ?_⟩
        simp only [addYears, MonthOK]
        omega

theorem leB_monthKey {a b : Date} (h : Date.leB a b = true)
    (ha : a.month ≤ 12) (hb : 1 ≤ b.month) : monthKey a ≤ monthKey b := by
  rw [Date.leB_iff] at h
  simp only [monthKey]
  omega

theorem monthKey_ltB {a b : Date} (h : monthKey a < monthKey b)
    (ha : MonthOK a) (hb : MonthOK b) : Date.ltB a b = true := by
  rw [Date.ltB_iff]
  obtain ⟨ha1, ha2⟩ := ha
  obtain ⟨hb1, hb2⟩ := hb
  simp only [monthKey] at h
  omega

/-! ## Validity of generated dates -/

theorem validDate_addMonths (d : Date) (n : Nat) (h1 : 1 ≤ d.day) :
    ValidDate (addMonths d n) := by
  have hpos := daysInMonth_pos (d.year + ((d.month - 1) + n) / 12)
    (((d.month - 1) + n) % 12 + 1)
  simp only [addMonths, ValidDate]
  omega

theorem validDate_addYears (d : Date) (n : Nat) (h : ValidDate d) :
    ValidDate (addYears d n) := by
  obtain ⟨h1, h2, h3, h4⟩ := h
  have hpos := daysInMonth_pos (d.year + n) d.month
  simp only [addYears, ValidDate]
  omega

theorem validDate_next {inc : Income} {d d' : Date}
    (h : get_next_occurrence inc d = some d') (hd : ValidDate d) :
    ValidDate d' := by
  unfold get_next_occurrence at h
  split at h
  · exact absurd h (by simp)
  · rcases hgi : get_interval inc.recurring with _ | i
    · rw [hgi] at h; exact absurd h (by simp)
    · rw [hgi] at h
      have hd' : d' = applyInterval d i := by
        injection h with h; exact h.symm
      subst hd'
      rcases i with n | n
      · exact validDate_addMonths d n hd.2.2.1
      · exact validDate_addYears d n hd

/-! ## Loop invariants of the occurrence generator -/

theorem occLoop_eq_nil_of_gt {inc : Income} {e cur : Date} {fuel : Nat}
    (h : Date.leB cur e = false) : occLoop inc e fuel cur = [] := by
  cases fuel with
  | zero => rfl
  | succ f => simp [occLoop, h]

theorem occLoop_mem_le {inc : Income} {e : Date} :
    ∀ (fuel : Nat) (cur : Date), ∀ d ∈ occLoop inc e fuel cur,
      Date.leB d e = true := by
  intro fuel
  induction fuel with
  | zero => intro cur d hd; simp [occLoop] at hd
  | succ f ih =>
    intro cur d hd
    simp only [occLoop] at hd
    split at hd
    · rename_i hle
      split at hd
      · rename_i d' hnext
        rcases List.mem_cons.mp hd with h | h
        · subst h; exact hle
        · exact ih d' d h
      · rcases List.mem_singleton.mp hd with h
        subst h; exact hle
    · simp at hd

theorem occLoop_valid {inc : Income} {e : Date} :
    ∀ (fuel : Nat) (cur : Date), ValidDate cur →
      ∀ d ∈ occLoop inc e fuel cur, ValidDate d := by
  intro fuel
  induction fuel with
  | zero => intro cur _ d hd; simp [occLoop] at hd
  | succ f ih =>
    intro cur hcur d hd
    simp only [occLoop] at hd
    split at hd
    · split at hd
      · rename_i d' hnext
        rcases List.mem_cons.mp hd with h | h
        · subst h; exact hcur
        · exact ih d' (validDate_next hnext hcur) d h
      · rcases List.mem_singleton.mp hd with h
        subst h; exact hcur
    · simp at hd

theorem occLoop_head {inc : Income} {e cur : Date} {fuel : Nat} :
    occLoop inc e fuel cur = [] ∨
      ∃ t, occLoop inc e fuel cur = cur :: t := by
  cases fuel with
  | zero => exact Or.inl rfl
  | succ f =>
    simp only [occLoop]
    split
    · split
      · exact Or.inr ⟨_, rfl⟩
      · exact Or.inr ⟨[], rfl⟩
    · exact Or.inl rfl

theorem occLoop_chain_lt {inc : Income} {e : Date} :
    ∀ (fuel : Nat) (cur : Date), MonthOK cur →
      List.Chain' (fun a b => Date.ltB a b = true) (occLoop inc e fuel cur) := by
  intro fuel
  induction fuel with
  | zero => intro cur _; exact List.chain'_nil
  | succ f ih =>
    intro cur hcur
    simp only [occLoop]
    split
    · split
      · rename_i d' hnext
        obtain ⟨hkey, hok⟩ := get_next_step hnext hcur
        refine List.chain'_cons'.mpr ⟨?_, ih d' hok⟩
        intro y hy
        rcases @occLoop_head inc e d' f
          with hnil | ⟨t, hcons⟩
        · rw [hnil] at hy; simp at hy
        · rw [hcons] at hy
          simp only [List.head?_cons, Option.mem_def, Option.some.injEq] at hy
          subst hy
          exact monthKey_ltB hkey hcur hok
      · simp
    · exact List.chain'_nil

theorem occLoop_fuel_irrelevant {inc : Income} {e : Date} (he : MonthOK e) :
    ∀ (f1 f2 : Nat) (cur : Date), MonthOK cur →
      monthKey e + 1 - monthKey cur ≤ f1 →
      monthKey e + 1 - monthKey cur ≤ f2 →
      occLoop inc e f1 cur = occLoop inc e f2 cur := by
  intro f1
  induction f1 with
  | zero =>
    intro f2 cur hcur h1 h2
    have hle : Date.leB cur e = false := by
      rcases h : Date.leB cur e with _ | _
      · rfl
      · have := leB_monthKey h hcur.2 he.1
        omega
    rw [occLoop_eq_nil_of_gt hle, occLoop_eq_nil_of_gt hle]
  | succ f ih =>
    intro f2 cur hcur h1 h2
    rcases hle : Date.leB cur e with _ | _
    · rw [occLoop_eq_nil_of_gt hle, occLoop_eq_nil_of_gt hle]
    · have hkey := leB_monthKey hle hcur.2 he.1
      rcases f2 with _ | g
      · omega
      · simp only [occLoop, hle, if_true]
        rcases hnext : get_next_occurrence inc cur with _ | d'
        · rfl
        · obtain ⟨hstep, hok⟩ := get_next_step hnext hcur
          show cur :: occLoop inc e f d' = cur :: occLoop inc e g d'
          rw [ih g d' hok (by omega) (by omega)]

theorem occLoop_chain_next {inc : Income} {e : Date} :
    ∀ (fuel : Nat) (cur : Date),
      List.Chain' (fun a b => get_next_occurrence inc a = some b)
        (occLoop inc e fuel cur) := by
  intro fuel
  induction fuel with
  | zero => intro cur; exact List.chain'_nil
  | succ f ih =>
    intro cur
    simp only [occLoop]
    split
    · split
      · rename_i d' hnext
        refine List.chain'_cons'.mpr ⟨?_, ih d'⟩
        intro y hy
        rcases @occLoop_head inc e d' f
          with hnil | ⟨t, hcons⟩
        · rw [hnil] at hy; simp at hy
        · rw [hcons] at hy
          simp only [List.head?_cons, Option.mem_def, Option.some.injEq] at hy
          subst hy
          exact hnext
      · simp
    · exact List.chain'_nil

theorem upcoming_mem_le {inc : Income} {e : Date} :
    ∀ d ∈ upcoming_occurrences inc e, Date.leB d e = true := by
  intro d hd
  unfold upcoming_occurrences at hd
  split at hd
  · split at hd
    · rename_i hle
      rcases List.mem_singleton.mp hd with h
      subst h; exact hle
    · simp at hd
  · exact occLoop_mem_le _ _ d hd

theorem upcoming_valid {inc : Income} {e : Date} (h : ValidDate inc.date) :
    ∀ d ∈ upcoming_occurrences inc e, ValidDate d := by
  intro d hd
  unfold upcoming_occurrences at hd
  split at hd
  · split at hd
    · rcases List.mem_singleton.mp hd with h'
      subst h'; exact h
    · simp at hd
  · exact occLoop_valid _ _ h d hd

theorem upcoming_chain_lt {inc : Income} {e : Date} (h : MonthOK inc.date) :
    List.Chain' (fun a b => Date.ltB a b = true)
      (upcoming_occurrences inc e) := by
  unfold upcoming_occurrences
  split
  · split
    · exact List.chain'_singleton _
    · exact List.chain'_nil
  · exact occLoop_chain_lt _ _ h

theorem upcoming_chain_next {inc : Income} {e : Date} :
    List.Chain' (fun a b => get_next_occurrence inc a = some b)
      (upcoming_occurrences inc e) := by
  unfold upcoming_occurrences
  split
  · split
    · exact List.chain'_singleton _
    · exact List.chain'_nil
  · exact occLoop_chain_next _ _

/-! ## Claim C1 -/

/-- C1 counterexample: for the record anchored 2024-01-31 with MONTHLY
recurrence and window end 2024-04-30, the generator does NOT yield
[2024-01-31, 2024-02-29, 2024-03-31, 2024-04-30] (nor the 02-28 variant):
the day-of-month is not preserved relative to the anchor. -/
theorem month_end_anchor_counterexample :
    upcoming_occurrences incJan31 ⟨2024, 4, 30⟩ ≠
      [⟨2024, 1, 31⟩, ⟨2024, 2, 29⟩, ⟨2024, 3, 31⟩, ⟨2024, 4, 30⟩] ∧
    upcoming_occurrences incJan31 ⟨2024, 4, 30⟩ ≠
      [⟨2024, 1, 31⟩, ⟨2024, 2, 28⟩, ⟨2024, 3, 31⟩, ⟨2024, 4, 30⟩] := by
  decide

/-- C1 (amended): the generator steps iteratively with `dateutil` clamping,
so the record anchored 2024-01-31 MONTHLY with window end 2024-04-30 yields
[2024-01-31, 2024-02-29, 2024-03-29, 2024-04-29] — once clamped to Feb 29
the day stays 29; and in general each consecutive pair of MONTHLY
occurrences is one `relativedelta(months=1)` step from its predecessor
(not from the anchor). -/
theorem month_end_clamped_stepping :
    upcoming_occurrences incJan31 ⟨2024, 4, 30⟩ =
      [⟨2024, 1, 31⟩, ⟨2024, 2, 29⟩, ⟨2024, 3, 29⟩, ⟨2024, 4, 29⟩] ∧
    ∀ (inc : Income) (e : Date), inc.recurring = "MO" →
      List.Chain' (fun a b => b = addMonths a 1)
        (upcoming_occurrences inc e) := by
  constructor
  · decide
  · intro inc e h
    refine List.Chain'.imp ?_ (@upcoming_chain_next inc e)
    intro a b hab
    unfold get_next_occurrence at hab
    rw [h] at hab
    rw [if_neg (by decide)] at hab
    have hmo : get_interval "MO" = some (Interval.months 1) := by decide
    rw [hmo] at hab
    simp only [Option.some.injEq] at hab
    exact hab.symm

/-- C1 witness: the consecutive-step property at the concrete scenario
record. -/
theorem month_end_clamped_stepping_witness :
    List.Chain' (fun a b => b = addMonths a 1)
      (upcoming_occurrences incJan31 ⟨2024, 4, 30⟩) :=
  month_end_clamped_stepping.2 incJan31 ⟨2024, 4, 30⟩ rfl

/-! ## Claim C3 -/

/-- C3 counterexample: resolving the unrecognized tag "XX" raises nothing
and returns `None` — the very value returned for the valid `NO` tag — and
the generator then expands the corrupt record as if it were a one-time
income, yielding its anchor. -/
theorem unrecognized_tag_counterexample :
    get_interval "XX" = none ∧ get_interval "NO" = none ∧
    upcoming_occurrences incBadTag ⟨2024, 12, 31⟩ = [incBadTag.date] := by
  decide

/-- C3 (amended): for every tag other than the recognized recurring ones,
`get_interval` returns `None` (silently, indistinguishable from the `NO`
tag), and the generator treats the record like a one-time income: the
anchor alone when it is within the window, else nothing.  The fault is
swallowed, not surfaced. -/
theorem unrecognized_tag_silent (inc : Income) (e : Date)
    (h0 : inc.recurring ≠ "NO") (h1 : inc.recurring ≠ "MO")
    (h2 : inc.recurring ≠ "QO") (h3 : inc.recurring ≠ "SO")
    (h4 : inc.recurring ≠ "YO") (hm : MonthOK inc.date) (he : MonthOK e) :
    get_interval inc.recurring = none ∧
    upcoming_occurrences inc e =
      (if Date.leB inc.date e = true then [inc.date] else []) := by
  have hgi : get_interval inc.recurring = none := by
    unfold get_interval
    rw [if_neg h1, if_neg h2, if_neg h3, if_neg h4]
  have hnext : get_next_occurrence inc inc.date = none := by
    unfold get_next_occurrence
    rw [if_neg h0, hgi]
  refine ⟨hgi, ?_⟩
  unfold upcoming_occurrences
  rw [if_neg h0]
  by_cases hle : Date.leB inc.date e = true
  · have hkey := leB_monthKey hle hm.2 he.1
    obtain ⟨f, hf⟩ : ∃ f, occFuel inc e = f + 1 :=
      ⟨monthKey e + 1 - monthKey inc.date, by unfold occFuel; omega⟩
    rw [hf]
    simp only [occLoop]
    rw [if_pos hle, hnext, if_pos hle]
  · have hle' : Date.leB inc.date e = false := by
      rcases h : Date.leB inc.date e with _ | _
      · rfl
      · exact absurd h hle
    rw [occLoop_eq_nil_of_gt hle', if_neg hle]

/-- C3 witness: the silent-swallowing behaviour at the concrete corrupt
record. -/
theorem unrecognized_tag_silent_witness :
    get_interval incBadTag.recurring = none ∧
    upcoming_occurrences incBadTag ⟨2024, 12, 31⟩ =
      (if Date.leB incBadTag.date ⟨2024, 12, 31⟩ = true
        then [incBadTag.date] else []) :=
  unrecognized_tag_silent incBadTag ⟨2024, 12, 31⟩ (by decide) (by decide)
    (by decide) (by decide) (by decide) (by decide) (by decide)

/-! ## Claim C9 -/

/-- C9: for every record with recurrence tag `NO`, the generator yields
exactly `[anchor]` when the anchor does not exceed the window end, and `[]`
when the anchor lies strictly after the window end. -/
theorem generator_no_recurrence (inc : Income) (e : Date)
    (h : inc.recurring = "NO") :
    (Date.leB inc.date e = true → upcoming_occurrences inc e = [inc.date]) ∧
    (Date.ltB e inc.date = true → upcoming_occurrences inc e = []) := by
  constructor
  · intro hle
    unfold upcoming_occurrences
    rw [if_pos h, if_pos hle]
  · intro hlt
    have hle : Date.leB inc.date e = false := by
      rw [Date.ltB_eq_not_leB] at hlt
      rcases hx : Date.leB inc.date e with _ | _
      · rfl
      · rw [hx] at hlt; simp at hlt
    unfold upcoming_occurrences
    rw [if_pos h, hle]
    simp

/-- C9 witness: both branches at concrete one-time records. -/
theorem generator_no_recurrence_witness :
    upcoming_occurrences incOnce ⟨2024, 12, 31⟩ = [incOnce.date] ∧
    upcoming_occurrences incOnce ⟨2024, 4, 30⟩ = [] :=
  ⟨(generator_no_recurrence incOnce ⟨2024, 12, 31⟩ rfl).1 (by decide),
   (generator_no_recurrence incOnce ⟨2024, 4, 30⟩ rfl).2 (by decide)⟩

/-! ## Claim C10 -/

/-- C10: the generation loop terminates on every record and window end:
its value is unchanged by any extra fuel beyond `occFuel` (the loop needs
only boundedly many iterations, because each recurring step strictly
advances the date and the window end is a fixed ceiling), the produced
finite sequence is strictly ascending, and every produced date is bounded
by the window end. -/
theorem generator_terminates (inc : Income) (end_date : Date) (k : Nat)
    (h1 : MonthOK inc.date) (h2 : MonthOK end_date) :
    occLoop inc end_date (occFuel inc end_date + k) inc.date =
      occLoop inc end_date (occFuel inc end_date) inc.date ∧
    List.Chain' (fun a b => Date.ltB a b = true)
      (upcoming_occurrences inc end_date) ∧
    ∀ d ∈ upcoming_occurrences inc end_date, Date.leB d end_date = true := by
  refine ⟨?_, upcoming_chain_lt h1, upcoming_mem_le⟩
  apply occLoop_fuel_irrelevant h2 _ _ _ h1 <;> (unfold occFuel; omega)

/-- C10 witness: fuel-irrelevance of the loop at the concrete scenario
record. -/
theorem generator_terminates_witness :
    occLoop incJan31 ⟨2024, 4, 30⟩
        (occFuel incJan31 ⟨2024, 4, 30⟩ + 7) incJan31.date =
      occLoop incJan31 ⟨2024, 4, 30⟩
        (occFuel incJan31 ⟨2024, 4, 30⟩) incJan31.date :=
  (generator_terminates incJan31 ⟨2024, 4, 30⟩ 7 (by decide) (by decide)).1

/-! ## Claim C2 -/

/-- C2 counterexample: the record anchored 2024-01-01 MONTHLY with
`expiration_date = 2024-03-01` does NOT produce zero occurrences for the
March 2024 window: the occurrence falling exactly on the expiration date
passes the inclusive `<=` check. -/
theorem expiration_boundary_counterexample :
    sortOccs (gatherOccurrences (get_filtered_incomes [incExpMar1] 2024 3)
        2024 3 (get_month_end 2024 3)) ≠ ([] : List (Date × Income)) := by
  decide

/-- C2 (amended): for the record anchored 2024-01-01 MONTHLY expiring
2024-03-01 and the March 2024 window, the period filter returns exactly one
occurrence, dated 2024-03-01 — the occurrence on exactly the expiration
date is included (the `<=` boundary is inclusive) — and the classifier
split returns that same single occurrence whatever "today" is. -/
theorem expiration_boundary_occurrence :
    sortOccs (gatherOccurrences (get_filtered_incomes [incExpMar1] 2024 3)
        2024 3 (get_month_end 2024 3)) = [(⟨2024, 3, 1⟩, incExpMar1)] ∧
    ∀ today : Date,
      (get_occurrences (get_filtered_incomes [incExpMar1] 2024 3) 2024 3 today
          (get_month_end 2024 3)).1 ++
        (get_occurrences (get_filtered_incomes [incExpMar1] 2024 3) 2024 3 today
          (get_month_end 2024 3)).2 = [(⟨2024, 3, 1⟩, incExpMar1)] := by
  have hg : sortOccs (gatherOccurrences (get_filtered_incomes [incExpMar1] 2024 3)
      2024 3 (get_month_end 2024 3)) = [(⟨2024, 3, 1⟩, incExpMar1)] := by decide
  refine ⟨hg, ?_⟩
  intro today
  simp only [get_occurrences, classify, hg]
  rcases hp : Date.leB ⟨2024, 3, 1⟩ today with _ | _
  · simp [List.filter, hp, Date.ltB_eq_not_leB]
  · simp [List.filter, hp, Date.ltB_eq_not_leB]

/-! ## Claim C4 -/

/-- C4 counterexample: a record with a null `expiration_date` that has an
occurrence tomorrow is NOT selected by the reminder path — the queryset
filter `expiration_date__gte` excludes SQL NULL. -/
theorem reminder_null_expiration_counterexample :
    reminder_fires incNullExp ⟨2024, 6, 14⟩ = false ∧
    nextDay ⟨2024, 6, 14⟩ ∈
      upcoming_occurrences incNullExp (nextDay (nextDay ⟨2024, 6, 14⟩)) ∧
    incNullExp.expiration_date = none := by
  decide

/-- C4 (amended): the reminder fires for a record iff tomorrow is a member
of the record's occurrence sequence bounded at tomorrow + 1 day AND the
record's `expiration_date` is non-null and `>= today`; records with a null
`expiration_date` are never selected. -/
theorem reminder_selector_iff (inc : Income) (today : Date) :
    reminder_fires inc today = true ↔
      ((∃ e, inc.expiration_date = some e ∧ Date.leB today e = true) ∧
        nextDay today ∈ upcoming_occurrences inc (nextDay (nextDay today))) := by
  unfold reminder_fires
  rcases hexp : inc.expiration_date with _ | e
  · simp [hexp]
  · simp [hexp]

/-- C4 witness: the selector fires for a record expiring after today with
an occurrence tomorrow. -/
theorem reminder_selector_iff_witness :
    reminder_fires incJan10 ⟨2024, 2, 9⟩ = true :=
  (reminder_selector_iff incJan10 ⟨2024, 2, 9⟩).mpr (by decide)

/-! ## Claim C7 -/

theorem filter_partition_length {α : Type} (l : List α) (p : α → Bool) :
    (l.filter p).length + (l.filter (fun a => !p a)).length = l.length := by
  induction l with
  | nil => rfl
  | cons a t ih =>
    rcases h : p a with _ | _ <;> simp [List.filter_cons, h] <;> omega

/-- C7: the accrued/upcoming split is a total, exhaustive partition:
`accrued` holds exactly the occurrences dated on or before today,
`upcoming` exactly those dated strictly after, the two are disjoint, and
their lengths add up to the input length. -/
theorem classify_partition (occs : List (Date × Income)) (today : Date) :
    ((classify occs today).1.length + (classify occs today).2.length
        = occs.length) ∧
    (∀ x, x ∈ (classify occs today).1 ↔
        x ∈ occs ∧ Date.leB x.1 today = true) ∧
    (∀ x, x ∈ (classify occs today).2 ↔
        x ∈ occs ∧ Date.ltB today x.1 = true) ∧
    (∀ x, x ∈ (classify occs today).1 → x ∈ (classify occs today).2 →
        False) := by
  have hq : occs.filter (fun x => Date.ltB today x.1) =
      occs.filter (fun x => !Date.leB x.1 today) :=
    List.filter_congr (fun a _ => Date.ltB_eq_not_leB today a.1)
  refine ⟨?_, ?_, ?_, ?_⟩
  · simp only [classify, hq]
    exact filter_partition_length occs _
  · intro x
    simp [classify, List.mem_filter]
  · intro x
    simp [classify, List.mem_filter]
  · intro x h1 h2
    simp only [classify, List.mem_filter] at h1 h2
    rw [Date.ltB_eq_not_leB, h1.2] at h2
    simp at h2

/-- C7 witness: the partition sizes at a concrete two-element occurrence
list. -/
theorem classify_partition_witness :
    ((classify [occHundredUSD, occTwoHundredJOD] ⟨2024, 3, 1⟩).1.length +
        (classify [occHundredUSD, occTwoHundredJOD] ⟨2024, 3, 1⟩).2.length
      = ([occHundredUSD, occTwoHundredJOD] : List (Date × Income)).length) :=
  (classify_partition [occHundredUSD, occTwoHundredJOD] ⟨2024, 3, 1⟩).1

theorem mem_insertOcc {a x : Date × Income} {l : List (Date × Income)} :
    x ∈ insertOcc a l ↔ x = a ∨ x ∈ l := by
  induction l with
  | nil => simp [insertOcc]
  | cons b t ih =>
    simp only [insertOcc]
    split
    · simp [List.mem_cons]
    · simp only [List.mem_cons, ih]
      tauto

theorem mem_sortOccs {x : Date × Income} {l : List (Date × Income)} :
    x ∈ sortOccs l ↔ x ∈ l := by
  induction l with
  | nil => simp [sortOccs]
  | cons b t ih =>
    simp only [sortOccs, mem_insertOcc, ih, List.mem_cons]

/-! ## Claim C6 -/

/-- C6: every occurrence returned by the period filter is dated within
[first day, last day] of the requested month, and never after its record's
expiration date when that is set. -/
theorem period_filter_window_sound (incomes : List Income)
    (year month : Nat) (today : Date)
    (hv : ∀ inc ∈ incomes, ValidDate inc.date) :
    ∀ x ∈ (get_occurrences incomes year month today
            (get_month_end year month)).1 ++
          (get_occurrences incomes year month today
            (get_month_end year month)).2,
      Date.leB (month_start year month) x.1 = true ∧
      Date.leB x.1 (get_month_end year month) = true ∧
      ∀ e, x.2.expiration_date = some e → Date.leB x.1 e = true := by
  intro x hx
  have hx' : x ∈ sortOccs (gatherOccurrences incomes year month
      (get_month_end year month)) := by
    simp only [get_occurrences, classify] at hx
    rcases List.mem_append.mp hx with h | h
    · exact (List.mem_filter.mp h).1
    · exact (List.mem_filter.mp h).1
  have hx'' : x ∈ gatherOccurrences incomes year month
      (get_month_end year month) :=
    mem_sortOccs.mp hx'
  unfold gatherOccurrences at hx''
  rcases List.mem_flatMap.mp hx'' with ⟨inc, hinc, hxin⟩
  rcases List.mem_map.mp hxin with ⟨d, hd, rfl⟩
  rcases List.mem_filter.mp hd with ⟨hdu, hok⟩
  simp only [occ_ok, Bool.and_eq_true, beq_iff_eq] at hok
  obtain ⟨⟨hyear, hmonth⟩, hexp⟩ := hok
  have hvd : ValidDate d := upcoming_valid (hv inc hinc) d hdu
  subst hyear
  subst hmonth
  unfold ValidDate at hvd
  refine ⟨?_, ?_, ?_⟩
  · rw [Date.leB_iff]
    dsimp only [month_start]
    omega
  · rw [Date.leB_iff]
    dsimp only [get_month_end]
    omega
  · intro e he
    rw [he] at hexp
    simpa using hexp

/-- C6 witness: the window bounds at a concrete MONTHLY record and its
March 2024 occurrence. -/
theorem period_filter_window_sound_witness :
    Date.leB (month_start 2024 3) (⟨2024, 3, 10⟩ : Date) = true ∧
    Date.leB (⟨2024, 3, 10⟩ : Date) (get_month_end 2024 3) = true ∧
    ∀ e, ((⟨2024, 3, 10⟩, incJan10) : Date × Income).2.expiration_date
        = some e → Date.leB (⟨2024, 3, 10⟩ : Date) e = true :=
  period_filter_window_sound [incJan10] 2024 3 ⟨2024, 3, 15⟩ (by decide)
    (⟨2024, 3, 10⟩, incJan10) (by decide)

/-! ## Claim C5 -/

set_option maxRecDepth 10000 in
attribute [local semireducible] Rat.add Rat.mul Rat.inv Rat.sub in
/-- C5 counterexample: the USD subtotal of occurrences `float("0.10")` and
`float("0.20")` is the binary64 value 1351079888211149/2^52
(0.30000000000000004…), which differs both from the exact decimal sum 0.30
and from the exact rational sum of the two stored amounts — the aggregator
works in binary floating point, not exact decimal arithmetic. -/
theorem currency_totals_float_counterexample :
    get_currency_totals [occDime, occFifth] =
      [("USD", (1351079888211149 : ℚ) / 4503599627370496)] ∧
    ((1351079888211149 : ℚ) / 4503599627370496) ≠ 3 / 10 ∧
    ((1351079888211149 : ℚ) / 4503599627370496) ≠
      occDime.2.amount + occFifth.2.amount := by
  refine ⟨?_, ?_, ?_⟩ <;> decide

set_option maxRecDepth 10000 in
attribute [local semireducible] Rat.add Rat.mul Rat.inv Rat.sub in
/-- C5 (amended): each per-currency subtotal is the binary64 float fold of
the amounts tagged with that currency; for the scenario amounts 100.00 USD
and 200.50 USD this equals 300.50 exactly (both amounts and their sum are
representable), but exact-decimal equality does not hold for all inputs. -/
theorem currency_totals_scenario :
    get_currency_totals [occHundredUSD, occTwoHalfUSD] =
      [("USD", 601 / 2)] := by
  decide

/-! ## Claim C8 -/

set_option maxRecDepth 10000 in
attribute [local semireducible] Rat.add Rat.mul Rat.inv Rat.sub in
/-- C8 counterexample: in a window holding 100 USD and 200 JOD occurrences
— two different currencies — the sum of the per-currency subtotals still
equals `all_total` (both are 300): equality is not restricted to
single-currency windows, because `all_total` numerically sums across
currencies. -/
theorem overall_total_mixed_currency_counterexample :
    ((get_currency_totals [occHundredUSD, occTwoHundredJOD]).map
        Prod.snd).foldl fadd 0 =
      sum_amounts [occHundredUSD, occTwoHundredJOD] ∧
    ¬ (∀ x ∈ ([occHundredUSD, occTwoHundredJOD] : List (Date × Income)),
        ∀ y ∈ ([occHundredUSD, occTwoHundredJOD] : List (Date × Income)),
          x.2.currency = y.2.currency) := by
  refine ⟨by decide, by decide⟩

/-- C8 (amended): as implemented, the report's `all_total` sums `amount`
across all occurrences regardless of currency: it is invariant under any
relabelling of the occurrences' currencies, so the overall figure is a raw
cross-currency numeric sum rather than a per-currency quantity. -/
theorem overall_total_ignores_currency (items : List (Date × Income))
    (f : String → String) :
    sum_amounts (items.map
        (fun x => (x.1, { x.2 with currency := f x.2.currency }))) =
      sum_amounts items := by
  simp only [sum_amounts, List.foldl_map]

/-- C8 witness: currency-relabelling invariance at the concrete
mixed-currency window. -/
theorem overall_total_ignores_currency_witness :
    sum_amounts (([occHundredUSD, occTwoHundredJOD] :
        List (Date × Income)).map
        (fun x => (x.1, { x.2 with currency := "USD" }))) =
      sum_amounts [occHundredUSD, occTwoHundredJOD] :=
  overall_total_ignores_currency [occHundredUSD, occTwoHundredJOD]
    (fun _ => "USD")

end IncomeTracker
